import Mathlib

/-!
Shallow embedding of `src/witness/memory.rs` (the segmented multi-context
memory model of a VM execution-trace generator).

External collaborators (the segment catalog size `Segment::COUNT`, the channel
counts `NUM_CHANNELS` and `NUM_GP_CHANNELS`) are injected constants in the
source crate and are passed here as explicit `Nat` parameters.

Rust `usize` values are modelled as `Nat`; the single place where the source
relies on fixed-width semantics (`saturating_add` in `MemoryAddress::increment`)
is modelled with an explicit saturation bound `USIZE_MAX = 2^64 - 1`.
Panics (a failed `assert!`, out-of-bounds slice/array indexing) are modelled by
`Option`: `none` is a panic.
-/

/-- Maximum value of a 64-bit Rust `usize`. -/
def USIZE_MAX : Nat := 2 ^ 64 - 1

/-- `enum MemoryChannel { Code, GeneralPurpose(usize) }`. -/
inductive MemoryChannel where
  | Code : MemoryChannel
  | GeneralPurpose : Nat → MemoryChannel
deriving DecidableEq

/-- `MemoryChannel::index`: `Code => 0`, `GeneralPurpose(n) => { assert!(n < NUM_GP_CHANNELS); n + 1 }`.
The failed assertion (a panic) is `none`. -/
def MemoryChannel.index (numGpChannels : Nat) : MemoryChannel → Option Nat
  | .Code => some 0
  | .GeneralPurpose n => if n < numGpChannels then some (n + 1) else none

/-- `struct MemoryAddress { context, segment, virt: usize }`. -/
structure MemoryAddress where
  context : Nat
  segment : Nat
  virt : Nat
deriving DecidableEq

/-- `MemoryAddress::increment`: `self.virt = self.virt.saturating_add(1)`;
`context` and `segment` are untouched. -/
def MemoryAddress.increment (a : MemoryAddress) : MemoryAddress :=
  ⟨a.context, a.segment, min (a.virt + 1) USIZE_MAX⟩

/-- `enum MemoryOpKind { Read, Write }`. -/
inductive MemoryOpKind where
  | Read : MemoryOpKind
  | Write : MemoryOpKind
deriving DecidableEq

/-- `struct MemoryOp { filter: bool, timestamp: usize, address, kind, value: u32 }`. -/
structure MemoryOp where
  filter : Bool
  timestamp : Nat
  address : MemoryAddress
  kind : MemoryOpKind
  value : Nat
deriving DecidableEq

/-- `static DUMMY_MEMOP`. -/
def DUMMY_MEMOP : MemoryOp :=
  ⟨false, 0, ⟨0, 0, 0⟩, .Read, 0⟩

/-- `MemoryOp::new(channel, clock, address, kind, value)`:
`timestamp = clock * NUM_CHANNELS + channel.index()`, `filter = true`.
`channel.index()` can panic, hence the `Option`. -/
def MemoryOp.new (numChannels numGpChannels : Nat) (channel : MemoryChannel)
    (clock : Nat) (address : MemoryAddress) (kind : MemoryOpKind) (value : Nat) :
    Option MemoryOp :=
  (channel.index numGpChannels).map fun i =>
    ⟨true, clock * numChannels + i, address, kind, value⟩

/-- `MemoryOp::new_dummy_read(address, timestamp, value)`: `filter = false`, kind `Read`. -/
def MemoryOp.new_dummy_read (address : MemoryAddress) (timestamp : Nat) (value : Nat) :
    MemoryOp :=
  ⟨false, timestamp, address, .Read, value⟩

/-- `MemoryOp::sorting_key`: the tuple `(context, segment, virt, timestamp)`. -/
def MemoryOp.sorting_key (op : MemoryOp) : Nat × Nat × Nat × Nat :=
  (op.address.context, op.address.segment, op.address.virt, op.timestamp)

/-- The address part `(context, segment, virt)` of an operation, i.e. the first
three components of `sorting_key`; used to state grouping/contiguity. -/
def MemoryOp.addrKey (op : MemoryOp) : Nat × Nat × Nat :=
  (op.address.context, op.address.segment, op.address.virt)

/-- Lexicographic `≤` on 4-tuples of naturals: the comparison Rust derives for
the `sorting_key` tuples when the operation log is sorted. -/
def lexLe4 (p q : Nat × Nat × Nat × Nat) : Prop :=
  p.1 < q.1 ∨
    (p.1 = q.1 ∧
      (p.2.1 < q.2.1 ∨
        (p.2.1 = q.2.1 ∧
          (p.2.2.1 < q.2.2.1 ∨
            (p.2.2.1 = q.2.2.1 ∧ p.2.2.2 ≤ q.2.2.2)))))

instance (p q : Nat × Nat × Nat × Nat) : Decidable (lexLe4 p q) := by
  unfold lexLe4
  exact inferInstance

/-- Comparison of operations by `sorting_key`. -/
def MemoryOp.keyLe (x y : MemoryOp) : Prop :=
  lexLe4 x.sorting_key y.sorting_key

instance (x y : MemoryOp) : Decidable (MemoryOp.keyLe x y) := by
  unfold MemoryOp.keyLe
  exact inferInstance

/-- `struct MemorySegmentState { content: Vec<u32> }`. -/
structure MemorySegmentState where
  content : List Nat
deriving DecidableEq

/-- `MemorySegmentState::get`: `content.get(virtual_addr).copied().unwrap_or(0)`. -/
def MemorySegmentState.get (s : MemorySegmentState) (virtual_addr : Nat) : Nat :=
  s.content[virtual_addr]?.getD 0

/-- `MemorySegmentState::set`: `if virtual_addr >= len { resize(virtual_addr + 1, 0) };
content[virtual_addr] = value`. When `virtual_addr < len` the appended
padding list is empty (truncated subtraction), matching the missing resize. -/
def MemorySegmentState.set (s : MemorySegmentState) (virtual_addr : Nat) (value : Nat) :
    MemorySegmentState :=
  ⟨(s.content ++ List.replicate (virtual_addr + 1 - s.content.length) 0).set virtual_addr value⟩

/-- `struct MemoryContextState { segments: [MemorySegmentState; Segment::COUNT] }`.
The fixed-size array is a list; states built by this model always give it
length `segmentCount`. -/
structure MemoryContextState where
  segments : List MemorySegmentState
deriving DecidableEq

/-- `MemoryContextState::default()`: `Segment::COUNT` empty segments. -/
def MemoryContextState.default (segmentCount : Nat) : MemoryContextState :=
  ⟨List.replicate segmentCount ⟨[]⟩⟩

/-- `struct MemoryState { contexts: Vec<MemoryContextState> }`. -/
structure MemoryState where
  contexts : List MemoryContextState
deriving DecidableEq

/-- `MemoryState::default()`: one initial (kernel) context. -/
def MemoryState.default (segmentCount : Nat) : MemoryState :=
  ⟨[MemoryContextState.default segmentCount]⟩

/-- `MemoryState::get(address)`. Returns `some 0` when `address.context` is past
the current context collection; otherwise `Segment::all()[address.segment]`
panics (`none`) when the segment index is outside the catalog, and otherwise
the addressed segment is read (array indexing of `segments` is the inner
`Option`, always in range for well-formed states). -/
def MemoryState.get (segmentCount : Nat) (s : MemoryState) (a : MemoryAddress) :
    Option Nat :=
  if s.contexts.length ≤ a.context then some 0
  else if segmentCount ≤ a.segment then none
  else
    match s.contexts[a.context]? with
    | none => none
    | some ctx =>
      match ctx.segments[a.segment]? with
      | none => none
      | some seg => some (seg.get a.virt)

/-- The `while address.context >= self.contexts.len() { self.contexts.push(default()) }`
loop at the head of `MemoryState::set`: the context collection after pushing
default contexts until index `c` is in range. -/
def MemoryState.grow (segmentCount : Nat) (s : MemoryState) (c : Nat) :
    List MemoryContextState :=
  s.contexts ++
    List.replicate (c + 1 - s.contexts.length) (MemoryContextState.default segmentCount)

/-- `MemoryState::set(address, val)`: the `while` loop pushes default contexts
until `address.context` is in range (`grow`), then `Segment::all()[address.segment]`
panics (`none`) for an out-of-catalog segment, then the addressed segment is
updated in place. -/
def MemoryState.set (segmentCount : Nat) (s : MemoryState) (a : MemoryAddress)
    (val : Nat) : Option MemoryState :=
  if segmentCount ≤ a.segment then none
  else
    match (MemoryState.grow segmentCount s a.context)[a.context]? with
    | none => none
    | some ctx =>
      match ctx.segments[a.segment]? with
      | none => none
      | some seg =>
        some ⟨(MemoryState.grow segmentCount s a.context).set a.context
          ⟨ctx.segments.set a.segment (seg.set a.virt val)⟩⟩

/-- `MemoryState::apply_ops(ops)`: fold over the list, calling `set` exactly for
operations whose `kind` is `Write`. -/
def MemoryState.apply_ops (segmentCount : Nat) : MemoryState → List MemoryOp → Option MemoryState
  | s, [] => some s
  | s, op :: rest =>
    if op.kind = .Write then
      match MemoryState.set segmentCount s op.address op.value with
      | none => none
      | some s1 => MemoryState.apply_ops segmentCount s1 rest
    else MemoryState.apply_ops segmentCount s rest

/-! ### Helper lemmas about segment stores -/

theorem MemorySegmentState.length_set_content (seg : MemorySegmentState) (v val : Nat) :
    (seg.set v val).content.length = max seg.content.length (v + 1) := by
  unfold MemorySegmentState.set
  simp
  omega

theorem MemorySegmentState.get_set_at (seg : MemorySegmentState) (v val : Nat) :
    (seg.set v val).get v = val := by
  unfold MemorySegmentState.set MemorySegmentState.get
  have hlt : v < (seg.content ++ List.replicate (v + 1 - seg.content.length) 0).length := by
    simp
    omega
  rw [List.getElem?_set_eq_of_lt val hlt]
  rfl

theorem MemorySegmentState.get_set_other (seg : MemorySegmentState) (v w val : Nat)
    (h : v ≠ w) : (seg.set w val).get v = seg.get v := by
  unfold MemorySegmentState.set MemorySegmentState.get
  rw [List.getElem?_set_ne (fun hwv => h hwv.symm)]
  by_cases hv : v < seg.content.length
  · rw [List.getElem?_append_left hv]
  · rw [List.getElem?_append_right (by omega)]
    rw [List.getElem?_eq_none (l := seg.content) (by omega)]
    rw [List.getElem?_replicate]
    split <;> rfl

theorem MemorySegmentState.get_empty (v : Nat) :
    MemorySegmentState.get ⟨[]⟩ v = 0 := by
  unfold MemorySegmentState.get
  rfl

theorem MemoryContextState.default_segments_getElem (segmentCount j : Nat) :
    (MemoryContextState.default segmentCount).segments[j]? =
      if j < segmentCount then some ⟨[]⟩ else none := by
  unfold MemoryContextState.default
  exact List.getElem?_replicate

/-! ### Helper lemmas about the lexicographic key order -/

theorem lexLe4_total (p q : Nat × Nat × Nat × Nat) : lexLe4 p q ∨ lexLe4 q p := by
  unfold lexLe4
  omega

theorem lexLe4_trans (p q r : Nat × Nat × Nat × Nat) :
    lexLe4 p q → lexLe4 q r → lexLe4 p r := by
  unfold lexLe4
  omega

theorem lexLe4_squeeze (p q r : Nat × Nat × Nat × Nat)
    (hpq : lexLe4 p q) (hqr : lexLe4 q r)
    (h1 : p.1 = r.1) (h2 : p.2.1 = r.2.1) (h3 : p.2.2.1 = r.2.2.1) :
    q.1 = p.1 ∧ q.2.1 = p.2.1 ∧ q.2.2.1 = p.2.2.1 ∧
      p.2.2.2 ≤ q.2.2.2 ∧ q.2.2.2 ≤ r.2.2.2 := by
  unfold lexLe4 at hpq hqr
  omega

/-! ### Helper lemmas about the memory state -/

theorem lt_length_of_index_some {α : Type} {l : List α} {i : Nat} {x : α}
    (h : l[i]? = some x) : i < l.length := by
  by_contra hc
  rw [List.getElem?_eq_none (by omega)] at h
  cases h

theorem MemoryState.length_grow (segmentCount : Nat) (s : MemoryState) (c : Nat) :
    (MemoryState.grow segmentCount s c).length = max s.contexts.length (c + 1) := by
  unfold MemoryState.grow
  simp
  omega

theorem MemoryState.grow_getElem (segmentCount : Nat) (s : MemoryState) (c i : Nat) :
    (MemoryState.grow segmentCount s c)[i]? =
      if i < s.contexts.length then s.contexts[i]?
      else if i < c + 1 then some (MemoryContextState.default segmentCount)
      else none := by
  unfold MemoryState.grow
  by_cases hi : i < s.contexts.length
  · rw [List.getElem?_append_left hi, if_pos hi]
  · rw [List.getElem?_append_right (by omega), if_neg hi, List.getElem?_replicate]
    split
    · rw [if_pos (by omega)]
    · rw [if_neg (by omega)]

theorem MemoryState.set_inv (segmentCount : Nat) (s : MemoryState) (a : MemoryAddress)
    (val : Nat) (s' : MemoryState)
    (h : MemoryState.set segmentCount s a val = some s') :
    a.segment < segmentCount ∧
    ∃ ctx seg,
      (MemoryState.grow segmentCount s a.context)[a.context]? = some ctx ∧
      ctx.segments[a.segment]? = some seg ∧
      s' = ⟨(MemoryState.grow segmentCount s a.context).set a.context
        ⟨ctx.segments.set a.segment (seg.set a.virt val)⟩⟩ := by
  unfold MemoryState.set at h
  split at h
  · cases h
  next hseg =>
    rcases hctx : (MemoryState.grow segmentCount s a.context)[a.context]? with _ | ctx
    · simp only [hctx] at h
      cases h
    · simp only [hctx] at h
      rcases hsg : ctx.segments[a.segment]? with _ | seg
      · simp only [hsg] at h
        cases h
      · simp only [hsg] at h
        exact ⟨by omega, ctx, seg, rfl, hsg, (Option.some.inj h).symm⟩

theorem MemoryState.get_set_self (segmentCount : Nat) (s s' : MemoryState)
    (a : MemoryAddress) (val : Nat)
    (h : MemoryState.set segmentCount s a val = some s') :
    MemoryState.get segmentCount s' a = some val := by
  obtain ⟨hseg, ctx, seg, hctx, hsg, rfl⟩ := MemoryState.set_inv segmentCount s a val s' h
  have hclen : a.context < (MemoryState.grow segmentCount s a.context).length :=
    lt_length_of_index_some hctx
  have hslen : a.segment < ctx.segments.length := lt_length_of_index_some hsg
  unfold MemoryState.get
  dsimp only
  rw [List.length_set]
  rw [if_neg (by omega), if_neg (by omega)]
  have h1 : ((MemoryState.grow segmentCount s a.context).set a.context
      ⟨ctx.segments.set a.segment (seg.set a.virt val)⟩)[a.context]? =
      some ⟨ctx.segments.set a.segment (seg.set a.virt val)⟩ :=
    List.getElem?_set_eq_of_lt _ hclen
  simp only [h1]
  have h2 : (ctx.segments.set a.segment (seg.set a.virt val))[a.segment]? =
      some (seg.set a.virt val) := List.getElem?_set_eq_of_lt _ hslen
  simp only [h2]
  rw [MemorySegmentState.get_set_at]

theorem MemoryState.get_set_of_ne (segmentCount : Nat) (s s' : MemoryState)
    (a b : MemoryAddress) (val : Nat)
    (h : MemoryState.set segmentCount s b val = some s')
    (hne : a ≠ b) (haseg : a.segment < segmentCount) :
    MemoryState.get segmentCount s' a = MemoryState.get segmentCount s a := by
  obtain ⟨hbseg, ctx, seg, hctx, hsg, rfl⟩ := MemoryState.set_inv segmentCount s b val s' h
  have hclen : b.context < (MemoryState.grow segmentCount s b.context).length :=
    lt_length_of_index_some hctx
  have hslen : b.segment < ctx.segments.length := lt_length_of_index_some hsg
  have hglen : (MemoryState.grow segmentCount s b.context).length =
      max s.contexts.length (b.context + 1) := MemoryState.length_grow segmentCount s b.context
  unfold MemoryState.get
  dsimp only
  rw [List.length_set]
  by_cases hac : a.context = b.context
  · have h1 : ((MemoryState.grow segmentCount s b.context).set b.context
        ⟨ctx.segments.set b.segment (seg.set b.virt val)⟩)[a.context]? =
        some ⟨ctx.segments.set b.segment (seg.set b.virt val)⟩ := by
      rw [hac]
      exact List.getElem?_set_eq_of_lt _ hclen
    rw [if_neg (show ¬ ((MemoryState.grow segmentCount s b.context).length ≤ a.context)
      by omega)]
    rw [if_neg (show ¬ (segmentCount ≤ a.segment) by omega)]
    simp only [h1]
    by_cases has : a.segment = b.segment
    · have hav : a.virt ≠ b.virt := by
        intro hv
        apply hne
        cases a
        cases b
        simp_all
      have h2 : (ctx.segments.set b.segment (seg.set b.virt val))[a.segment]? =
          some (seg.set b.virt val) := by
        rw [has]
        exact List.getElem?_set_eq_of_lt _ hslen
      simp only [h2]
      rw [MemorySegmentState.get_set_other _ _ _ _ hav]
      by_cases haL : a.context < s.contexts.length
      · have h3 : s.contexts[a.context]? = some ctx := by
          have hg := MemoryState.grow_getElem segmentCount s b.context b.context
          rw [hctx, if_pos (by omega)] at hg
          rw [hac]
          exact hg.symm
        rw [if_neg (show ¬ (s.contexts.length ≤ a.context) by omega)]
        rw [if_neg (show ¬ (segmentCount ≤ a.segment) by omega)]
        simp only [h3]
        rw [has]
        simp only [hsg]
      · rw [if_pos (show s.contexts.length ≤ a.context by omega)]
        have hctxd : ctx = MemoryContextState.default segmentCount := by
          have hg := MemoryState.grow_getElem segmentCount s b.context b.context
          rw [hctx, if_neg (by omega), if_pos (by omega)] at hg
          exact Option.some.inj hg
        have hsegd : seg = MemorySegmentState.mk [] := by
          rw [hctxd, MemoryContextState.default_segments_getElem, if_pos (by omega)] at hsg
          exact (Option.some.inj hsg).symm
        rw [hsegd, MemorySegmentState.get_empty]
    · have h2 : (ctx.segments.set b.segment (seg.set b.virt val))[a.segment]? =
          ctx.segments[a.segment]? :=
        List.getElem?_set_ne (fun hh => has hh.symm)
      simp only [h2]
      by_cases haL : a.context < s.contexts.length
      · have h3 : s.contexts[a.context]? = some ctx := by
          have hg := MemoryState.grow_getElem segmentCount s b.context b.context
          rw [hctx, if_pos (by omega)] at hg
          rw [hac]
          exact hg.symm
        rw [if_neg (show ¬ (s.contexts.length ≤ a.context) by omega)]
        rw [if_neg (show ¬ (segmentCount ≤ a.segment) by omega)]
        simp only [h3]
      · rw [if_pos (show s.contexts.length ≤ a.context by omega)]
        have hctxd : ctx = MemoryContextState.default segmentCount := by
          have hg := MemoryState.grow_getElem segmentCount s b.context b.context
          rw [hctx, if_neg (by omega), if_pos (by omega)] at hg
          exact Option.some.inj hg
        rw [hctxd, MemoryContextState.default_segments_getElem,
          if_pos (show a.segment < segmentCount by omega)]
        simp [MemorySegmentState.get_empty]
  · have h1 : ((MemoryState.grow segmentCount s b.context).set b.context
        ⟨ctx.segments.set b.segment (seg.set b.virt val)⟩)[a.context]? =
        (MemoryState.grow segmentCount s b.context)[a.context]? :=
      List.getElem?_set_ne (fun hh => hac hh.symm)
    simp only [h1, MemoryState.grow_getElem]
    by_cases haL : a.context < s.contexts.length
    · have e1 : ¬ ((MemoryState.grow segmentCount s b.context).length ≤ a.context) := by
        omega
      have e2 : ¬ (s.contexts.length ≤ a.context) := by omega
      have e3 : ¬ (segmentCount ≤ a.segment) := by omega
      simp only [if_pos haL, if_neg e1, if_neg e2, if_neg e3]
    · rw [if_neg haL, if_pos (show s.contexts.length ≤ a.context by omega)]
      by_cases hgl : (MemoryState.grow segmentCount s b.context).length ≤ a.context
      · rw [if_pos hgl]
      · rw [if_neg hgl, if_pos (show a.context < b.context + 1 by omega)]
        rw [if_neg (show ¬ (segmentCount ≤ a.segment) by omega)]
        simp [MemoryContextState.default_segments_getElem, haseg,
          MemorySegmentState.get_empty]

theorem MemoryState.get_default (segmentCount : Nat) (a : MemoryAddress)
    (h : a.segment < segmentCount) :
    MemoryState.get segmentCount (MemoryState.default segmentCount) a = some 0 := by
  unfold MemoryState.get MemoryState.default
  dsimp only [List.length_cons, List.length_nil]
  by_cases hc : a.context = 0
  · rw [if_neg (by omega), if_neg (by omega), hc]
    simp only [List.getElem?_cons_zero]
    simp only [MemoryContextState.default_segments_getElem, if_pos h]
    rw [MemorySegmentState.get_empty]
  · rw [if_pos (by omega)]

theorem MemoryState.get_apply_ops_of_not_written (segmentCount : Nat) (s s' : MemoryState)
    (a : MemoryAddress) (ops : List MemoryOp)
    (h : MemoryState.apply_ops segmentCount s ops = some s')
    (hnw : ∀ op ∈ ops, ¬ (op.kind = MemoryOpKind.Write ∧ op.address = a))
    (haseg : a.segment < segmentCount) :
    MemoryState.get segmentCount s' a = MemoryState.get segmentCount s a := by
  induction ops generalizing s with
  | nil =>
    unfold MemoryState.apply_ops at h
    cases Option.some.inj h
    rfl
  | cons op rest ih =>
    unfold MemoryState.apply_ops at h
    by_cases hk : op.kind = MemoryOpKind.Write
    · rw [if_pos hk] at h
      rcases hset : MemoryState.set segmentCount s op.address op.value with _ | s1
      · simp only [hset] at h
        cases h
      · simp only [hset] at h
        have hne : a ≠ op.address := by
          intro he
          exact hnw op (by simp) ⟨hk, he.symm⟩
        rw [ih s1 h (fun o ho => hnw o (by simp [ho]))]
        exact MemoryState.get_set_of_ne segmentCount s s1 a op.address op.value hset hne haseg
    · rw [if_neg hk] at h
      exact ih s h (fun o ho => hnw o (by simp [ho]))

theorem MemoryState.apply_ops_of_reads (segmentCount : Nat) (s : MemoryState)
    (ops : List MemoryOp) (h : ∀ op ∈ ops, op.kind = MemoryOpKind.Read) :
    MemoryState.apply_ops segmentCount s ops = some s := by
  induction ops with
  | nil => rfl
  | cons op rest ih =>
    unfold MemoryState.apply_ops
    rw [if_neg (by rw [h op (by simp)]; simp)]
    exact ih (fun o ho => h o (by simp [ho]))

theorem MemoryState.get_after_last_write (segmentCount : Nat) (s s' : MemoryState)
    (a : MemoryAddress) (ops : List MemoryOp) (w : MemoryOp)
    (h : MemoryState.apply_ops segmentCount s ops = some s')
    (hlast : (ops.filter fun op =>
      decide (op.kind = MemoryOpKind.Write ∧ op.address = a)).getLast? = some w) :
    MemoryState.get segmentCount s' a = some w.value := by
  induction ops generalizing s with
  | nil => simp at hlast
  | cons op rest ih =>
    unfold MemoryState.apply_ops at h
    by_cases hw : op.kind = MemoryOpKind.Write ∧ op.address = a
    · rw [if_pos hw.1] at h
      rcases hset : MemoryState.set segmentCount s op.address op.value with _ | s1
      · simp only [hset] at h
        cases h
      · simp only [hset] at h
        rw [List.filter_cons_of_pos (by simp [hw.1, hw.2])] at hlast
        by_cases hrest :
            (rest.filter fun op =>
              decide (op.kind = MemoryOpKind.Write ∧ op.address = a)) = []
        · have hwop : w = op := by
            rw [hrest] at hlast
            simpa using hlast.symm
          have hnw : ∀ o ∈ rest, ¬ (o.kind = MemoryOpKind.Write ∧ o.address = a) := by
            intro o ho hoa
            have hmem : o ∈ rest.filter fun op =>
                decide (op.kind = MemoryOpKind.Write ∧ op.address = a) :=
              List.mem_filter.mpr ⟨ho, by simp [hoa.1, hoa.2]⟩
            rw [hrest] at hmem
            cases hmem
          have haseg : a.segment < segmentCount := by
            have hs := (MemoryState.set_inv segmentCount s op.address op.value s1 hset).1
            rw [hw.2] at hs
            exact hs
          rw [MemoryState.get_apply_ops_of_not_written segmentCount s1 s' a rest h hnw haseg]
          have hget := MemoryState.get_set_self segmentCount s s1 op.address op.value hset
          rw [hw.2] at hget
          rw [hwop]
          exact hget
        · obtain ⟨x, xs, hxx⟩ := List.exists_cons_of_ne_nil hrest
          rw [hxx, List.getLast?_cons_cons] at hlast
          exact ih s1 h (by rw [hxx, hlast])
    · rw [List.filter_cons_of_neg (by simpa using hw)] at hlast
      by_cases hk : op.kind = MemoryOpKind.Write
      · rw [if_pos hk] at h
        rcases hset : MemoryState.set segmentCount s op.address op.value with _ | s1
        · simp only [hset] at h
          cases h
        · simp only [hset] at h
          exact ih s1 h hlast
      · rw [if_neg hk] at h
        exact ih s h hlast

theorem replicate_set_last (n v : Nat) :
    (List.replicate (n + 1) (0 : Nat)).set n v = List.replicate n 0 ++ [v] := by
  induction n with
  | zero => rfl
  | succ n ih =>
    rw [List.replicate_succ, List.set_cons_succ, ih, List.replicate_succ]
    rfl

theorem MemorySegmentState.set_empty (virt v : Nat) :
    MemorySegmentState.set ⟨[]⟩ virt v = ⟨List.replicate virt 0 ++ [v]⟩ := by
  unfold MemorySegmentState.set
  simp only [List.nil_append, List.length_nil, Nat.sub_zero]
  rw [replicate_set_last]

/-! ### Claims -/

/-- Claim C3. Timestamp encoding: for every clock `c`, `MemoryOp::new` with
channel `Code` produces `timestamp = c * NUM_CHANNELS`, and with channel
`GeneralPurpose(k)` where `k < NUM_GP_CHANNELS` produces
`timestamp = c * NUM_CHANNELS + k + 1`; the constructed operation has
`filter = true`. -/
theorem C3_timestamp_encoding (numChannels numGpChannels clock k : Nat)
    (address : MemoryAddress) (kind : MemoryOpKind) (value : Nat)
    (hk : k < numGpChannels) :
    MemoryOp.new numChannels numGpChannels MemoryChannel.Code clock address kind value =
      some ⟨true, clock * numChannels, address, kind, value⟩ ∧
    MemoryOp.new numChannels numGpChannels (MemoryChannel.GeneralPurpose k)
        clock address kind value =
      some ⟨true, clock * numChannels + k + 1, address, kind, value⟩ := by
  unfold MemoryOp.new MemoryChannel.index
  constructor
  · simp
  · dsimp only
    rw [if_pos hk]
    simp
    omega

/-- Witness for C3 at `NUM_CHANNELS = 9`, `NUM_GP_CHANNELS = 8`, clock 3, lane 2. -/
theorem C3_timestamp_encoding_witness :
    MemoryOp.new 9 8 MemoryChannel.Code 3 ⟨0, 0, 0⟩ MemoryOpKind.Read 42 =
      some ⟨true, 27, ⟨0, 0, 0⟩, MemoryOpKind.Read, 42⟩ ∧
    MemoryOp.new 9 8 (MemoryChannel.GeneralPurpose 2) 3 ⟨0, 0, 0⟩ MemoryOpKind.Read 42 =
      some ⟨true, 30, ⟨0, 0, 0⟩, MemoryOpKind.Read, 42⟩ :=
  C3_timestamp_encoding 9 8 3 2 ⟨0, 0, 0⟩ MemoryOpKind.Read 42 (by decide)

/-- Claim C7. Channel bound: `index()` on `GeneralPurpose(n)` with
`n >= NUM_GP_CHANNELS` fails (assertion, modelled `none`); with
`n < NUM_GP_CHANNELS` it returns `n + 1`; `Code.index()` returns 0. -/
theorem C7_channel_bound (numGpChannels n : Nat) :
    (numGpChannels ≤ n →
      MemoryChannel.index numGpChannels (MemoryChannel.GeneralPurpose n) = none) ∧
    (n < numGpChannels →
      MemoryChannel.index numGpChannels (MemoryChannel.GeneralPurpose n) = some (n + 1)) ∧
    MemoryChannel.index numGpChannels MemoryChannel.Code = some 0 := by
  refine ⟨fun h => ?_, fun h => ?_, rfl⟩
  · unfold MemoryChannel.index
    dsimp only
    rw [if_neg (by omega)]
  · unfold MemoryChannel.index
    dsimp only
    rw [if_pos h]

/-- Witness for C7 at `NUM_GP_CHANNELS = 8`: lane 9 panics, lane 3 maps to 4,
`Code` maps to 0. -/
theorem C7_channel_bound_witness :
    MemoryChannel.index 8 (MemoryChannel.GeneralPurpose 9) = none ∧
    MemoryChannel.index 8 (MemoryChannel.GeneralPurpose 3) = some 4 ∧
    MemoryChannel.index 8 MemoryChannel.Code = some 0 :=
  ⟨(C7_channel_bound 8 9).1 (by decide), (C7_channel_bound 8 3).2.1 (by decide),
    (C7_channel_bound 8 0).2.2⟩

/-- Claim C8. Increment saturation: `increment()` advances `virt` by exactly
one, except at the maximum representable offset where it stays (saturating
`usize` addition); `context` and `segment` are unchanged. -/
theorem C8_increment_saturating (a : MemoryAddress) (h : a.virt ≤ USIZE_MAX) :
    a.increment.context = a.context ∧ a.increment.segment = a.segment ∧
    (a.virt < USIZE_MAX → a.increment.virt = a.virt + 1) ∧
    (a.virt = USIZE_MAX → a.increment.virt = USIZE_MAX) := by
  unfold MemoryAddress.increment
  refine ⟨rfl, rfl, fun hlt => ?_, fun he => ?_⟩
  · dsimp only
    omega
  · dsimp only
    omega

/-- Witness for C8: one step below the bound, and at the bound. -/
theorem C8_increment_saturating_witness :
    (MemoryAddress.increment ⟨1, 2, 5⟩).virt = 6 ∧
    (MemoryAddress.increment ⟨0, 0, USIZE_MAX⟩).virt = USIZE_MAX :=
  ⟨(C8_increment_saturating ⟨1, 2, 5⟩ (by norm_num [USIZE_MAX])).2.2.1
      (by norm_num [USIZE_MAX]),
    (C8_increment_saturating ⟨0, 0, USIZE_MAX⟩ (Nat.le_refl _)).2.2.2 rfl⟩

/-- Claim C10. `get` is partial in the segment index: a context index within
range but a segment index at or past the catalog count panics (`none`) instead
of returning zero; a context index beyond the collection returns `some 0`
without examining the segment. -/
theorem C10_get_partial_in_segment (segmentCount : Nat) (s : MemoryState)
    (a : MemoryAddress) :
    (a.context < s.contexts.length → segmentCount ≤ a.segment →
      MemoryState.get segmentCount s a = none) ∧
    (s.contexts.length ≤ a.context → MemoryState.get segmentCount s a = some 0) := by
  constructor
  · intro h1 h2
    unfold MemoryState.get
    rw [if_neg (by omega), if_pos h2]
  · intro h1
    unfold MemoryState.get
    rw [if_pos h1]

/-- Witness for C10 on a fresh two-segment state: segment 5 in the existing
context 0 panics, while context 3 (out of range) reads as zero. -/
theorem C10_get_partial_in_segment_witness :
    MemoryState.get 2 (MemoryState.default 2) ⟨0, 5, 0⟩ = none ∧
    MemoryState.get 2 (MemoryState.default 2) ⟨3, 5, 0⟩ = some 0 :=
  ⟨(C10_get_partial_in_segment 2 (MemoryState.default 2) ⟨0, 5, 0⟩).1 (by decide) (by decide),
    (C10_get_partial_in_segment 2 (MemoryState.default 2) ⟨3, 5, 0⟩).2 (by decide)⟩

/-- Claim C1. Last-write-wins: if the last `Write` operation to address `a`
in `ops` is `w` (regardless of interleaved operations to other addresses),
then after `apply_ops` succeeds, `get a` returns `w.value`. -/
theorem C1_last_write_wins (segmentCount : Nat) (s s' : MemoryState) (a : MemoryAddress)
    (ops : List MemoryOp) (w : MemoryOp)
    (happly : MemoryState.apply_ops segmentCount s ops = some s')
    (hlast : (ops.filter fun op =>
      decide (op.kind = MemoryOpKind.Write ∧ op.address = a)).getLast? = some w) :
    MemoryState.get segmentCount s' a = some w.value :=
  MemoryState.get_after_last_write segmentCount s s' a ops w happly hlast

/-- Witness for C1: writes 5 then 9 to one address with an interleaved write
and a read elsewhere; the final read returns 9. -/
theorem C1_last_write_wins_witness :
    MemoryState.get 2
      ⟨[⟨[⟨[9]⟩, ⟨[0, 0, 0, 7]⟩]⟩]⟩ ⟨0, 0, 0⟩ = some 9 :=
  C1_last_write_wins 2 (MemoryState.default 2)
    ⟨[⟨[⟨[9]⟩, ⟨[0, 0, 0, 7]⟩]⟩]⟩ ⟨0, 0, 0⟩
    [⟨true, 1, ⟨0, 0, 0⟩, MemoryOpKind.Write, 5⟩,
     ⟨true, 2, ⟨0, 1, 3⟩, MemoryOpKind.Write, 7⟩,
     ⟨true, 3, ⟨0, 1, 3⟩, MemoryOpKind.Read, 8⟩,
     ⟨true, 4, ⟨0, 0, 0⟩, MemoryOpKind.Write, 9⟩]
    ⟨true, 4, ⟨0, 0, 0⟩, MemoryOpKind.Write, 9⟩ (by decide) (by decide)

/-- Claim C2. Zero default: on a freshly constructed state every valid address
reads zero, and after applying any operations that never touch address `a`
(so `a` is never passed to `set`), `get a` still returns zero — in particular
for context indices beyond the collection and offsets beyond a segment's
content. -/
theorem C2_zero_default (segmentCount : Nat) (ops : List MemoryOp) (a : MemoryAddress)
    (s' : MemoryState) (hseg : a.segment < segmentCount)
    (havoid : ∀ op ∈ ops, op.address ≠ a)
    (happly : MemoryState.apply_ops segmentCount (MemoryState.default segmentCount) ops =
      some s') :
    MemoryState.get segmentCount (MemoryState.default segmentCount) a = some 0 ∧
    MemoryState.get segmentCount s' a = some 0 := by
  refine ⟨MemoryState.get_default segmentCount a hseg, ?_⟩
  rw [MemoryState.get_apply_ops_of_not_written segmentCount _ s' a ops happly
    (fun op ho hc => havoid op ho hc.2) hseg]
  exact MemoryState.get_default segmentCount a hseg

/-- Witness for C2: an offset far beyond the written content of another cell
reads zero before and after the write. -/
theorem C2_zero_default_witness :
    MemoryState.get 2 (MemoryState.default 2) ⟨0, 0, 5⟩ = some 0 ∧
    MemoryState.get 2 ⟨[⟨[⟨[]⟩, ⟨[7]⟩]⟩]⟩ ⟨0, 0, 5⟩ = some 0 :=
  C2_zero_default 2 [⟨true, 1, ⟨0, 1, 0⟩, MemoryOpKind.Write, 7⟩] ⟨0, 0, 5⟩
    ⟨[⟨[⟨[]⟩, ⟨[7]⟩]⟩]⟩ (by decide) (by decide) (by decide)

/-- Claim C5. Read isolation: a sequence containing only `Read` operations
leaves the state (and hence every `get` result) unchanged. -/
theorem C5_read_isolation (segmentCount : Nat) (s : MemoryState) (ops : List MemoryOp)
    (h : ∀ op ∈ ops, op.kind = MemoryOpKind.Read) :
    MemoryState.apply_ops segmentCount s ops = some s ∧
    ∀ s' a, MemoryState.apply_ops segmentCount s ops = some s' →
      MemoryState.get segmentCount s' a = MemoryState.get segmentCount s a := by
  refine ⟨MemoryState.apply_ops_of_reads segmentCount s ops h, ?_⟩
  intro s' a h'
  rw [MemoryState.apply_ops_of_reads segmentCount s ops h] at h'
  cases Option.some.inj h'
  rfl

/-- Witness for C5: two reads (one a padding row) leave a one-cell state intact. -/
theorem C5_read_isolation_witness :
    MemoryState.apply_ops 1 ⟨[⟨[⟨[3]⟩]⟩]⟩
      [⟨true, 1, ⟨0, 0, 0⟩, MemoryOpKind.Read, 3⟩,
       ⟨false, 9, ⟨0, 0, 4⟩, MemoryOpKind.Read, 0⟩] = some ⟨[⟨[⟨[3]⟩]⟩]⟩ ∧
    ∀ s' a, MemoryState.apply_ops 1 ⟨[⟨[⟨[3]⟩]⟩]⟩
      [⟨true, 1, ⟨0, 0, 0⟩, MemoryOpKind.Read, 3⟩,
       ⟨false, 9, ⟨0, 0, 4⟩, MemoryOpKind.Read, 0⟩] = some s' →
      MemoryState.get 1 s' a = MemoryState.get 1 ⟨[⟨[⟨[3]⟩]⟩]⟩ a :=
  C5_read_isolation 1 ⟨[⟨[⟨[3]⟩]⟩]⟩
    [⟨true, 1, ⟨0, 0, 0⟩, MemoryOpKind.Read, 3⟩,
     ⟨false, 9, ⟨0, 0, 4⟩, MemoryOpKind.Read, 0⟩] (by decide)

/-- Claim C9 (implicit). `apply_ops` ignores the validity flag: an operation
with `filter = false` but kind `Write` is applied exactly like a valid write,
and flipping every operation's `filter` never changes the result — only the
`kind` field decides whether `set` is called. -/
theorem C9_filter_ignored (segmentCount : Nat) (s : MemoryState) (op : MemoryOp)
    (ops : List MemoryOp) (b : Bool)
    (hk : op.kind = MemoryOpKind.Write) (hf : op.filter = false) :
    MemoryState.apply_ops segmentCount s [op] =
      MemoryState.set segmentCount s op.address op.value ∧
    MemoryState.apply_ops segmentCount s
      (ops.map fun o => ⟨b, o.timestamp, o.address, o.kind, o.value⟩) =
      MemoryState.apply_ops segmentCount s ops := by
  constructor
  · unfold MemoryState.apply_ops
    rw [if_pos hk]
    rcases hset : MemoryState.set segmentCount s op.address op.value with _ | s1
    · rfl
    · rfl
  · induction ops generalizing s with
    | nil => rfl
    | cons o rest ih =>
      unfold MemoryState.apply_ops
      dsimp only [List.map]
      by_cases hko : o.kind = MemoryOpKind.Write
      · rw [if_pos hko, if_pos hko]
        rcases hset : MemoryState.set segmentCount s o.address o.value with _ | s1
        · rfl
        · exact ih s1
      · rw [if_neg hko, if_neg hko]
        exact ih s

/-- Witness for C9: an invalid (`filter = false`) write of 7 mutates the fresh
state exactly as `set` does, and clearing the flags of a mixed list changes
nothing. -/
theorem C9_filter_ignored_witness :
    MemoryState.apply_ops 1 (MemoryState.default 1)
      [⟨false, 0, ⟨0, 0, 0⟩, MemoryOpKind.Write, 7⟩] =
      MemoryState.set 1 (MemoryState.default 1) ⟨0, 0, 0⟩ 7 ∧
    MemoryState.apply_ops 1 (MemoryState.default 1)
      (([⟨true, 1, ⟨0, 0, 1⟩, MemoryOpKind.Write, 3⟩,
        ⟨true, 2, ⟨0, 0, 0⟩, MemoryOpKind.Read, 4⟩] : List MemoryOp).map
        fun o => (⟨false, o.timestamp, o.address, o.kind, o.value⟩ : MemoryOp)) =
      MemoryState.apply_ops 1 (MemoryState.default 1)
        [⟨true, 1, ⟨0, 0, 1⟩, MemoryOpKind.Write, 3⟩,
         ⟨true, 2, ⟨0, 0, 0⟩, MemoryOpKind.Read, 4⟩] :=
  C9_filter_ignored 1 (MemoryState.default 1)
    ⟨false, 0, ⟨0, 0, 0⟩, MemoryOpKind.Write, 7⟩
    [⟨true, 1, ⟨0, 0, 1⟩, MemoryOpKind.Write, 3⟩,
     ⟨true, 2, ⟨0, 0, 0⟩, MemoryOpKind.Read, 4⟩] false rfl rfl

/-- Claim C4. Ordering key and totality: `sorting_key` is exactly the tuple
`(context, segment, virt, timestamp)`; the induced comparison is total and
transitive; and in any list sorted by it, operations sharing the address
triple are contiguous and internally ordered by ascending timestamp. -/
theorem C4_ordering_key (l : List MemoryOp) (hs : l.Pairwise MemoryOp.keyLe)
    (i j k : Fin l.length) (hij : i ≤ j) (hjk : j ≤ k)
    (hik : (l.get i).addrKey = (l.get k).addrKey) :
    (∀ op : MemoryOp, op.sorting_key =
      (op.address.context, op.address.segment, op.address.virt, op.timestamp)) ∧
    (∀ x y : MemoryOp, MemoryOp.keyLe x y ∨ MemoryOp.keyLe y x) ∧
    (∀ x y z : MemoryOp, MemoryOp.keyLe x y → MemoryOp.keyLe y z → MemoryOp.keyLe x z) ∧
    ((l.get j).addrKey = (l.get i).addrKey ∧
      (l.get i).timestamp ≤ (l.get j).timestamp ∧
      (l.get j).timestamp ≤ (l.get k).timestamp) := by
  have key_of_le : ∀ p q : Fin l.length, p ≤ q → MemoryOp.keyLe (l.get p) (l.get q) := by
    intro p q hpq
    rcases Nat.lt_or_ge p.1 q.1 with hl | hg
    · exact List.pairwise_iff_get.mp hs p q hl
    · have hpq2 : p = q := le_antisymm hpq hg
      subst hpq2
      unfold MemoryOp.keyLe lexLe4
      omega
  have h1 := key_of_le i j hij
  have h2 := key_of_le j k hjk
  simp only [MemoryOp.addrKey, Prod.mk.injEq] at hik
  obtain ⟨e1, e2, e3⟩ := hik
  unfold MemoryOp.keyLe at h1 h2
  obtain ⟨q1, q2, q3, q4, q5⟩ := lexLe4_squeeze _ _ _ h1 h2 e1 e2 e3
  refine ⟨fun op => rfl, fun x y => lexLe4_total _ _, fun x y z => lexLe4_trans _ _ _,
    ?_, q4, q5⟩
  simp only [MemoryOp.addrKey, Prod.mk.injEq]
  exact ⟨q1, q2, q3⟩

/-- Concrete sorted operation log used by the witness of C4: three accesses to
one address, timestamps ascending. -/
def c4Ops : List MemoryOp :=
  [⟨true, 0, ⟨1, 2, 3⟩, MemoryOpKind.Read, 0⟩,
   ⟨true, 1, ⟨1, 2, 3⟩, MemoryOpKind.Write, 4⟩,
   ⟨true, 2, ⟨1, 2, 3⟩, MemoryOpKind.Read, 4⟩]

/-- Witness for C4 on `c4Ops` with indices 0 ≤ 1 ≤ 2. -/
theorem C4_ordering_key_witness :
    (∀ op : MemoryOp, op.sorting_key =
      (op.address.context, op.address.segment, op.address.virt, op.timestamp)) ∧
    (∀ x y : MemoryOp, MemoryOp.keyLe x y ∨ MemoryOp.keyLe y x) ∧
    (∀ x y z : MemoryOp, MemoryOp.keyLe x y → MemoryOp.keyLe y z → MemoryOp.keyLe x z) ∧
    ((c4Ops.get ⟨1, by decide⟩).addrKey = (c4Ops.get ⟨0, by decide⟩).addrKey ∧
      (c4Ops.get ⟨0, by decide⟩).timestamp ≤ (c4Ops.get ⟨1, by decide⟩).timestamp ∧
      (c4Ops.get ⟨1, by decide⟩).timestamp ≤ (c4Ops.get ⟨2, by decide⟩).timestamp) :=
  C4_ordering_key c4Ops (by decide) ⟨0, by decide⟩ ⟨1, by decide⟩ ⟨2, by decide⟩
    (by decide) (by decide) (by decide)

/-- Claim C6. Lazy growth: `set` on a context index `k` at or past the current
collection length `m` (with a valid segment) succeeds and leaves exactly
`k + 1` contexts; the pre-existing contexts are untouched, the appended
contexts below `k` are fully default, and context `k` holds the addressed
segment extended to put the offset in range (zero fill, value at the offset)
while its other segments stay empty. -/
theorem C6_lazy_growth (segmentCount m k seg virt v : Nat) (s : MemoryState)
    (hm : s.contexts.length = m) (hk : m ≤ k) (hseg : seg < segmentCount) :
    ∃ s', MemoryState.set segmentCount s ⟨k, seg, virt⟩ v = some s' ∧
      s'.contexts.length = k + 1 ∧
      (∀ i, i < m → s'.contexts[i]? = s.contexts[i]?) ∧
      (∀ i, m ≤ i → i < k →
        s'.contexts[i]? = some (MemoryContextState.default segmentCount)) ∧
      s'.contexts[k]? = some ⟨(MemoryContextState.default segmentCount).segments.set seg
        ⟨List.replicate virt 0 ++ [v]⟩⟩ ∧
      (∀ j, j < segmentCount → j ≠ seg →
        ((MemoryContextState.default segmentCount).segments.set seg
          ⟨List.replicate virt 0 ++ [v]⟩)[j]? = some ⟨[]⟩) := by
  have hg : (MemoryState.grow segmentCount s k)[k]? =
      some (MemoryContextState.default segmentCount) := by
    rw [MemoryState.grow_getElem, if_neg (by omega), if_pos (by omega)]
  have hglen : (MemoryState.grow segmentCount s k).length = k + 1 := by
    rw [MemoryState.length_grow]
    omega
  have hset : MemoryState.set segmentCount s ⟨k, seg, virt⟩ v =
      some ⟨(MemoryState.grow segmentCount s k).set k
        ⟨(MemoryContextState.default segmentCount).segments.set seg
          ⟨List.replicate virt 0 ++ [v]⟩⟩⟩ := by
    unfold MemoryState.set
    dsimp only
    rw [if_neg (by omega)]
    simp only [hg]
    simp only [MemoryContextState.default_segments_getElem, if_pos hseg]
    rw [MemorySegmentState.set_empty]
  refine ⟨_, hset, ?_, ?_, ?_, ?_, ?_⟩
  · simp [List.length_set, hglen]
  · intro i hi
    dsimp only
    rw [List.getElem?_set_ne (by omega)]
    rw [MemoryState.grow_getElem, if_pos (by omega)]
  · intro i h1 h2
    dsimp only
    rw [List.getElem?_set_ne (by omega)]
    rw [MemoryState.grow_getElem, if_neg (by omega), if_pos (by omega)]
  · dsimp only
    rw [List.getElem?_set_eq_of_lt _ (by omega)]
  · intro j hj hjs
    rw [List.getElem?_set_ne (fun hh => hjs hh.symm)]
    rw [MemoryContextState.default_segments_getElem, if_pos hj]

/-- Witness for C6: growing a fresh two-segment state (one context) to context
index 2 by writing 9 at offset 2 of segment 1. -/
theorem C6_lazy_growth_witness :
    ∃ s', MemoryState.set 2 (MemoryState.default 2) ⟨2, 1, 2⟩ 9 = some s' ∧
      s'.contexts.length = 3 ∧
      (∀ i, i < 1 → s'.contexts[i]? = (MemoryState.default 2).contexts[i]?) ∧
      (∀ i, 1 ≤ i → i < 2 →
        s'.contexts[i]? = some (MemoryContextState.default 2)) ∧
      s'.contexts[2]? = some ⟨(MemoryContextState.default 2).segments.set 1
        ⟨List.replicate 2 0 ++ [9]⟩⟩ ∧
      (∀ j, j < 2 → j ≠ 1 →
        ((MemoryContextState.default 2).segments.set 1
          ⟨List.replicate 2 0 ++ [9]⟩)[j]? = some ⟨[]⟩) :=
  C6_lazy_growth 2 1 2 1 2 9 (MemoryState.default 2) rfl (by decide) (by decide)
